import Mathlib

/-!
Verification of the longitudinal planner
(selfdrive/controls/lib/longitudinal_planner.py).

Numbers are embedded as rationals. Machinery imported by the planner from
modules that are not part of the source tree (interpolation helper, unit
conversions, optimizer-wide limits, time grids) is modelled from the
specification and marked as such in doc comments. The field aTarget of a
candidate solution uses Option: none encodes the float value +infinity of
the baseline cruise candidate.
-/

/-- Modelled from the spec: linear interpolation between breakpoints with flat
extrapolation beyond the range of the table (common.numpy_fast.interp, a
dependency that is not under the source tree). Recursion helper walking the
breakpoint list once the query is known to lie past the head breakpoint. -/
def interpGo (x : ℚ) : ℚ → ℚ → List ℚ → List ℚ → ℚ
  | x0, f0, x1 :: xps, f1 :: fps =>
      if x ≤ x1 then (x - x0) * (f1 - f0) / (x1 - x0) + f0
      else interpGo x x1 f1 xps fps
  | _, f0, _, _ => f0

/-- Modelled from the spec: linear interpolation of x over breakpoints xp with
values fp, flat beyond both ends of the table. -/
def interp (x : ℚ) (xp fp : List ℚ) : ℚ :=
  match xp, fp with
  | x0 :: xps, f0 :: fps => if x ≤ x0 then f0 else interpGo x x0 f0 xps fps
  | _, _ => 0

/-- Modelled from the spec: math.sqrt on nonnegative rationals, embedded as the
integer square root of num * den over den. Only nonnegativity of the result is
used by the theorems below. -/
def ratSqrt (x : ℚ) : ℚ := (Nat.sqrt (x.num.toNat * x.den) : ℚ) / (x.den : ℚ)

/-- Modelled from the spec: degree-to-radian factor of the conversions module
(not under the source tree), a fixed positive rational approximation. -/
def DEG_TO_RAD : ℚ := 17453292519943295 / 1000000000000000000

def AWARENESS_DECEL : ℚ := -2/10

def A_CRUISE_MIN : ℚ := -12/10

def A_CRUISE_MAX_VALS : List ℚ := [16/10, 12/10, 8/10, 6/10]

def A_CRUISE_MAX_BP : List ℚ := [0, 10, 25, 40]

def A_TOTAL_MAX_V : List ℚ := [17/10, 32/10]

def A_TOTAL_MAX_BP : List ℚ := [20, 40]

def DP_ACCEL_ECO : ℤ := 0

def DP_ACCEL_NORMAL : ℤ := 1

def DP_ACCEL_SPORT : ℤ := 2

def DP_CRUISE_MIN_V : List ℚ := [-1, -1, -1, -1, -1, -1, -1, -1, -1, -1]

def DP_CRUISE_MIN_V_ECO : List ℚ := [-1, -1, -1, -1, -1, -1, -1, -1, -1, -1]

def DP_CRUISE_MIN_V_SPORT : List ℚ := [-1, -1, -1, -1, -1, -1, -1, -1, -1, -1]

def DP_CRUISE_MIN_BP : List ℚ := [0, 7/100, 6, 8, 11, 15, 20, 25, 30, 55]

def DP_CRUISE_MAX_V : List ℚ :=
  [35/10, 17/10, 131/100, 95/100, 77/100, 67/100, 55/100, 47/100, 31/100, 13/100]

def DP_CRUISE_MAX_V_ECO : List ℚ :=
  [25/10, 13/10, 12/10, 7/10, 48/100, 35/100, 25/100, 15/100, 12/100, 6/100]

def DP_CRUISE_MAX_V_SPORT : List ℚ :=
  [35/10, 35/10, 25/10, 15/10, 2, 2, 2, 15/10, 1, 5/10]

def DP_CRUISE_MAX_BP : List ℚ := [0, 3, 6, 8, 11, 15, 20, 25, 30, 55]

def dp_calc_cruise_accel_limits (vEgo : ℚ) (dpProfile : ℤ) : ℚ × ℚ :=
  if dpProfile = DP_ACCEL_ECO then
    (interp vEgo DP_CRUISE_MIN_BP DP_CRUISE_MIN_V_ECO,
     interp vEgo DP_CRUISE_MAX_BP DP_CRUISE_MAX_V_ECO)
  else if dpProfile = DP_ACCEL_SPORT then
    (interp vEgo DP_CRUISE_MIN_BP DP_CRUISE_MIN_V_SPORT,
     interp vEgo DP_CRUISE_MAX_BP DP_CRUISE_MAX_V_SPORT)
  else
    (interp vEgo DP_CRUISE_MIN_BP DP_CRUISE_MIN_V,
     interp vEgo DP_CRUISE_MAX_BP DP_CRUISE_MAX_V)

def get_max_accel (vEgo : ℚ) : ℚ := interp vEgo A_CRUISE_MAX_BP A_CRUISE_MAX_VALS

/-- Turn derating of the upper acceleration bound: the lower bound is kept, the
upper bound is capped at the longitudinal headroom left by the approximate
lateral acceleration. -/
def limit_accel_in_turns (vEgo angleSteers : ℚ) (aTarget : ℚ × ℚ)
    (steerRatio wheelbase : ℚ) : ℚ × ℚ :=
  (aTarget.1,
   min aTarget.2
     (ratSqrt (max ((interp vEgo A_TOTAL_MAX_BP A_TOTAL_MAX_V) ^ 2
        - (vEgo ^ 2 * angleSteers * DEG_TO_RAD / (steerRatio * wheelbase)) ^ 2) 0)))

/-- Derivation of accel_limits and accel_limits_turns in update. When profile
control is enabled the profile tables and the turn derating are used; the inner
branch reassigning accel_limits from the default table is transcribed as in the
source, where its guard also requires profile control to be disabled. When
profile control is disabled both pairs are the constant optimizer-wide limits,
passed here as the arguments minAccel and maxAccel since they are imported
from the mpc module, which is not under the source tree. -/
def accelLimitsStage (minAccel maxAccel : ℚ) (profileCtrl modeIsAcc : Bool)
    (profile : ℤ) (vEgo angleSteers steerRatio wheelbase : ℚ) : (ℚ × ℚ) × (ℚ × ℚ) :=
  if profileCtrl then
    ((if !profileCtrl && modeIsAcc then (A_CRUISE_MIN, get_max_accel vEgo)
      else dp_calc_cruise_accel_limits vEgo profile),
     limit_accel_in_turns vEgo angleSteers (dp_calc_cruise_accel_limits vEgo profile)
       steerRatio wheelbase)
  else ((minAccel, maxAccel), (minAccel, maxAccel))

/-- Force-deceleration override: the upper bound is clamped to the awareness
deceleration and the lower bound is clamped to the new upper bound. -/
def forceDecelOverride (lo hi : ℚ) : ℚ × ℚ :=
  (min lo (min hi AWARENESS_DECEL), min hi AWARENESS_DECEL)

def postOverride (forceDecel : Bool) (lo hi : ℚ) : ℚ × ℚ :=
  if forceDecel then forceDecelOverride lo hi else (lo, hi)

/-- Feasibility clipping before handing the bounds to the optimizer: the lower
bound is clipped below the previous desired acceleration plus the margin and
below the minimal acceleration of the chosen candidate solution (none encodes
the unconstrained value +infinity of the cruise candidate), the upper bound is
clipped above the previous desired acceleration minus the margin. -/
def feasibilityClip (lo hi aDesired : ℚ) (aMinSol : Option ℚ) : ℚ × ℚ :=
  (match aMinSol with
   | none => min lo (aDesired + 5/100)
   | some q => min (min lo (aDesired + 5/100)) q,
   max hi (aDesired - 5/100))

/-- The acceleration bounds handed to set_accel_limits each cycle: profile or
constant limits, then turn derating, then the optional force-deceleration
override, then feasibility clipping. -/
def mpcAccelLimits (minAccel maxAccel : ℚ) (profileCtrl modeIsAcc forceDecel : Bool)
    (profile : ℤ) (vEgo angleSteers steerRatio wheelbase aDesired : ℚ)
    (aMinSol : Option ℚ) : ℚ × ℚ :=
  feasibilityClip
    (postOverride forceDecel
      (accelLimitsStage minAccel maxAccel profileCtrl modeIsAcc profile vEgo
        angleSteers steerRatio wheelbase).2.1
      (accelLimitsStage minAccel maxAccel profileCtrl modeIsAcc profile vEgo
        angleSteers steerRatio wheelbase).2.2).1
    (postOverride forceDecel
      (accelLimitsStage minAccel maxAccel profileCtrl modeIsAcc profile vEgo
        angleSteers steerRatio wheelbase).2.1
      (accelLimitsStage minAccel maxAccel profileCtrl modeIsAcc profile vEgo
        angleSteers steerRatio wheelbase).2.2).2
    aDesired aMinSol

theorem ratSqrt_nonneg (x : ℚ) : 0 ≤ ratSqrt x := by
  unfold ratSqrt
  positivity

theorem interpGo_ge (x c : ℚ) :
    ∀ (xps fps : List ℚ) (x0 f0 : ℚ), x0 < x → List.Chain (· < ·) x0 xps →
      c ≤ f0 → (∀ f ∈ fps, c ≤ f) → c ≤ interpGo x x0 f0 xps fps := by
  intro xps
  induction xps with
  | nil => intro fps x0 f0 _ _ h0 _; exact h0
  | cons x1 xs ih =>
    intro fps x0 f0 hx0 hch h0 hfs
    cases fps with
    | nil => exact h0
    | cons f1 fs =>
      rw [List.chain_cons] at hch
      obtain ⟨h01, hch'⟩ := hch
      have hf1 : c ≤ f1 := hfs f1 (List.mem_cons_self _ _)
      show c ≤ if x ≤ x1 then (x - x0) * (f1 - f0) / (x1 - x0) + f0
        else interpGo x x1 f1 xs fs
      split_ifs with hle
      · have hd : 0 < x1 - x0 := by linarith
        have ht0 : 0 < x - x0 := by linarith
        have ht1 : x - x0 ≤ x1 - x0 := by linarith
        rcases le_total f0 f1 with hf | hf
        · have hnn : 0 ≤ (x - x0) * (f1 - f0) / (x1 - x0) :=
            div_nonneg (mul_nonneg (le_of_lt ht0) (by linarith)) (le_of_lt hd)
          linarith
        · have hkey : f1 - f0 ≤ (x - x0) * (f1 - f0) / (x1 - x0) := by
            rw [le_div_iff₀ hd]
            nlinarith
          linarith
      · exact ih fs x1 f1 (lt_of_not_le hle) hch' hf1
          (fun f hf => hfs f (List.mem_cons_of_mem _ hf))

theorem interpGo_le (x c : ℚ) :
    ∀ (xps fps : List ℚ) (x0 f0 : ℚ), x0 < x → List.Chain (· < ·) x0 xps →
      f0 ≤ c → (∀ f ∈ fps, f ≤ c) → interpGo x x0 f0 xps fps ≤ c := by
  intro xps
  induction xps with
  | nil => intro fps x0 f0 _ _ h0 _; exact h0
  | cons x1 xs ih =>
    intro fps x0 f0 hx0 hch h0 hfs
    cases fps with
    | nil => exact h0
    | cons f1 fs =>
      rw [List.chain_cons] at hch
      obtain ⟨h01, hch'⟩ := hch
      have hf1 : f1 ≤ c := hfs f1 (List.mem_cons_self _ _)
      show (if x ≤ x1 then (x - x0) * (f1 - f0) / (x1 - x0) + f0
        else interpGo x x1 f1 xs fs) ≤ c
      split_ifs with hle
      · have hd : 0 < x1 - x0 := by linarith
        have ht0 : 0 < x - x0 := by linarith
        have ht1 : x - x0 ≤ x1 - x0 := by linarith
        rcases le_total f0 f1 with hf | hf
        · have hkey : (x - x0) * (f1 - f0) / (x1 - x0) ≤ f1 - f0 := by
            rw [div_le_iff₀ hd]
            nlinarith
          linarith
        · have hnp : (x - x0) * (f1 - f0) / (x1 - x0) ≤ 0 :=
            div_nonpos_of_nonpos_of_nonneg
              (mul_nonpos_of_nonneg_of_nonpos (le_of_lt ht0) (by linarith)) (by linarith)
          linarith
      · exact ih fs x1 f1 (lt_of_not_le hle) hch' hf1
          (fun f hf => hfs f (List.mem_cons_of_mem _ hf))

theorem interp_ge (x c x0 f0 : ℚ) (xps fps : List ℚ)
    (hch : List.Chain (· < ·) x0 xps) (hf0 : c ≤ f0) (hfps : ∀ f ∈ fps, c ≤ f) :
    c ≤ interp x (x0 :: xps) (f0 :: fps) := by
  show c ≤ if x ≤ x0 then f0 else interpGo x x0 f0 xps fps
  split_ifs with hle
  · exact hf0
  · exact interpGo_ge x c xps fps x0 f0 (lt_of_not_le hle) hch hf0 hfps

theorem interp_le (x c x0 f0 : ℚ) (xps fps : List ℚ)
    (hch : List.Chain (· < ·) x0 xps) (hf0 : f0 ≤ c) (hfps : ∀ f ∈ fps, f ≤ c) :
    interp x (x0 :: xps) (f0 :: fps) ≤ c := by
  show (if x ≤ x0 then f0 else interpGo x x0 f0 xps fps) ≤ c
  split_ifs with hle
  · exact hf0
  · exact interpGo_le x c xps fps x0 f0 (lt_of_not_le hle) hch hf0 hfps

theorem dp_min_le (v : ℚ) (prof : ℤ) : (dp_calc_cruise_accel_limits v prof).1 ≤ -1 := by
  unfold dp_calc_cruise_accel_limits
  split_ifs <;>
    simp only [DP_CRUISE_MIN_BP, DP_CRUISE_MIN_V, DP_CRUISE_MIN_V_ECO,
      DP_CRUISE_MIN_V_SPORT] <;>
    exact interp_le v (-1) _ _ _ _ (by norm_num [List.chain_cons]) (by norm_num)
      (by intro f hf; fin_cases hf <;> norm_num)

theorem dp_max_ge (v : ℚ) (prof : ℤ) : (3:ℚ)/50 ≤ (dp_calc_cruise_accel_limits v prof).2 := by
  unfold dp_calc_cruise_accel_limits
  split_ifs <;>
    simp only [DP_CRUISE_MAX_BP, DP_CRUISE_MAX_V, DP_CRUISE_MAX_V_ECO,
      DP_CRUISE_MAX_V_SPORT] <;>
    exact interp_ge v (3/50) _ _ _ _ (by norm_num [List.chain_cons]) (by norm_num)
      (by intro f hf; fin_cases hf <;> norm_num)

theorem stage_turns_le (minA maxA : ℚ) (h : minA ≤ maxA) (pc macc : Bool) (prof : ℤ)
    (v ang sr wb : ℚ) :
    (accelLimitsStage minA maxA pc macc prof v ang sr wb).2.1
      ≤ (accelLimitsStage minA maxA pc macc prof v ang sr wb).2.2 := by
  cases pc with
  | false => exact h
  | true =>
    show (limit_accel_in_turns v ang (dp_calc_cruise_accel_limits v prof) sr wb).1
      ≤ (limit_accel_in_turns v ang (dp_calc_cruise_accel_limits v prof) sr wb).2
    show (dp_calc_cruise_accel_limits v prof).1
      ≤ min (dp_calc_cruise_accel_limits v prof).2 _
    have h1 := dp_min_le v prof
    have h2 := dp_max_ge v prof
    have h3 := ratSqrt_nonneg (max ((interp v A_TOTAL_MAX_BP A_TOTAL_MAX_V) ^ 2
        - (v ^ 2 * ang * DEG_TO_RAD / (sr * wb)) ^ 2) 0)
    exact le_min (by linarith) (by linarith)

theorem postOverride_le (fd : Bool) (lo hi : ℚ) (h : lo ≤ hi) :
    (postOverride fd lo hi).1 ≤ (postOverride fd lo hi).2 := by
  cases fd
  · exact h
  · exact min_le_right _ _

theorem feasibilityClip_props (lo hi aDes : ℚ) (aSol : Option ℚ) (hlh : lo ≤ hi) :
    (feasibilityClip lo hi aDes aSol).1 ≤ (feasibilityClip lo hi aDes aSol).2
    ∧ (feasibilityClip lo hi aDes aSol).1 ≤ aDes + 5/100
    ∧ aDes - 5/100 ≤ (feasibilityClip lo hi aDes aSol).2 := by
  cases aSol with
  | none =>
    refine ⟨?_, min_le_right _ _, le_max_right _ _⟩
    exact le_trans (min_le_left _ _) (le_trans hlh (le_max_left _ _))
  | some q =>
    refine ⟨?_, le_trans (min_le_left _ _) (min_le_right _ _), le_max_right _ _⟩
    exact le_trans (min_le_left _ _)
      (le_trans (min_le_left _ _) (le_trans hlh (le_max_left _ _)))

/-- C1: every cycle, the acceleration bounds handed to set_accel_limits satisfy
min ≤ max, min ≤ previous desired acceleration + 0.05 and
max ≥ previous desired acceleration − 0.05, so the fixed starting acceleration
of the optimizer lies inside the feasible box. The optimizer-wide constants
are parameters assumed ordered since their module is not under the source
tree. -/
theorem mpc_accel_limits_bracket (minA maxA : ℚ) (h : minA ≤ maxA)
    (pc macc fd : Bool) (prof : ℤ) (v ang sr wb aDes : ℚ) (aSol : Option ℚ) :
    (mpcAccelLimits minA maxA pc macc fd prof v ang sr wb aDes aSol).1
      ≤ (mpcAccelLimits minA maxA pc macc fd prof v ang sr wb aDes aSol).2
    ∧ (mpcAccelLimits minA maxA pc macc fd prof v ang sr wb aDes aSol).1
      ≤ aDes + 5/100
    ∧ aDes - 5/100
      ≤ (mpcAccelLimits minA maxA pc macc fd prof v ang sr wb aDes aSol).2 := by
  unfold mpcAccelLimits
  exact feasibilityClip_props _ _ _ _
    (postOverride_le fd _ _ (stage_turns_le minA maxA h pc macc prof v ang sr wb))

/-- Witness for C1 at a concrete cycle with the profile tables enabled. -/
theorem mpc_accel_limits_bracket_witness :
    (-7/2 : ℚ) ≤ 2
    ∧ ((mpcAccelLimits (-7/2) 2 true true false 1 5 0 15 3 0 none).1
        ≤ (mpcAccelLimits (-7/2) 2 true true false 1 5 0 15 3 0 none).2
      ∧ (mpcAccelLimits (-7/2) 2 true true false 1 5 0 15 3 0 none).1 ≤ 0 + 5/100
      ∧ 0 - 5/100 ≤ (mpcAccelLimits (-7/2) 2 true true false 1 5 0 15 3 0 none).2) :=
  ⟨by norm_num, mpc_accel_limits_bracket (-7/2) 2 (by norm_num) true true false 1 5 0 15 3 0 none⟩

inductive Mode where
  | acc : Mode
  | blended : Mode
deriving DecidableEq, Repr

/-- Persistent state of the conditional end-to-end mode arbiter, one field per
instance attribute set up in the constructor. -/
structure E2EState where
  hasLead : Bool
  leadLast : Bool
  leadCount : Nat
  modeLast : Mode
  sng : Bool
  sngCount : Nat
  standstillLast : Bool
deriving DecidableEq, Repr

def initE2E : E2EState :=
  { hasLead := false, leadLast := false, leadCount := 0, modeLast := Mode.acc,
    sng := false, sngCount := 0, standstillLast := false }

def DP_E2E_LEAD_COUNT : Nat := 50

def DP_E2E_SNG_COUNT : Nat := 250

/-- Lead debounce: a raw flag differing from the last cycle resets the counter,
otherwise the counter increments and, once it reaches the threshold, the
committed flag adopts the raw flag. -/
def leadStep (s : E2EState) (e2eLead : Bool) : E2EState :=
  if e2eLead ≠ s.leadLast then { s with leadCount := 0 }
  else
    { s with leadCount := s.leadCount + 1,
             hasLead := if DP_E2E_LEAD_COUNT ≤ s.leadCount + 1 then e2eLead
                        else s.hasLead }

/-- Stop-and-go window: arm on a standstill-to-moving transition; while armed
the counter increments and on reaching the threshold only the flag is cleared,
as in the source, which never resets the counter. -/
def sngStep (s : E2EState) (standstill : Bool) : E2EState :=
  let s1 := if !standstill && s.standstillLast then { s with sng := true } else s
  if s1.sng then
    { s1 with sngCount := s1.sngCount + 1,
              sng := if DP_E2E_SNG_COUNT ≤ s1.sngCount + 1 then false else s1.sng }
  else s1

/-- One cycle of conditional_e2e: lead debounce, stop-and-go bookkeeping, mode
selection in priority order, reset flag on a mode change, then commit of the
last-cycle fields. The relative-speed argument is accepted and unused, as in
the source. -/
def conditional_e2e (s : E2EState) (standstill withinSpeedCondition e2eLead : Bool)
    (_leadRelSpeed : ℚ) : E2EState × Mode × Bool :=
  let s1 := leadStep s e2eLead
  let s2 := sngStep s1 standstill
  let s3 := if standstill then { s2 with sng := false } else s2
  let mode := if standstill then Mode.blended
    else if s2.sng then Mode.blended
    else if withinSpeedCondition then
      (if !s2.hasLead then Mode.blended else Mode.acc)
    else Mode.acc
  let reset := decide (mode ≠ s.modeLast)
  ({ s3 with leadLast := e2eLead, modeLast := mode, standstillLast := standstill },
   mode, reset)

def runE2E : E2EState → List Bool → List Mode
  | _, [] => []
  | s, st :: rest =>
    ((conditional_e2e s st false false 0).2.1)
      :: runE2E (conditional_e2e s st false false 0).1 rest

/-- Standstill profile of the stop-and-go trace: one standstill cycle, 260
moving cycles, one standstill cycle, one moving cycle; no lead, speed condition
not met. -/
def sngTrace : List Bool := true :: (List.replicate 260 false ++ [true, false])

theorem sngStep_hasLead (s : E2EState) (st : Bool) : (sngStep s st).hasLead = s.hasLead := by
  unfold sngStep
  dsimp only
  split_ifs <;> rfl

theorem conditional_e2e_state_hasLead (s : E2EState) (st ws ld : Bool) (rel : ℚ) :
    ((conditional_e2e s st ws ld rel).1).hasLead = (leadStep s ld).hasLead := by
  unfold conditional_e2e
  dsimp only
  split_ifs <;> simp [sngStep_hasLead]

theorem conditional_e2e_state_leadCount (s : E2EState) (st ws ld : Bool) (rel : ℚ) :
    ((conditional_e2e s st ws ld rel).1).leadCount = (leadStep s ld).leadCount := by
  unfold conditional_e2e sngStep
  dsimp only
  split_ifs <;> rfl

theorem conditional_e2e_state_leadLast (s : E2EState) (st ws ld : Bool) (rel : ℚ) :
    ((conditional_e2e s st ws ld rel).1).leadLast = ld := by
  unfold conditional_e2e
  dsimp only

theorem leadStep_of_ne (s : E2EState) (ld : Bool) (h : ld ≠ s.leadLast) :
    (leadStep s ld).leadCount = 0 ∧ (leadStep s ld).hasLead = s.hasLead := by
  unfold leadStep
  rw [if_pos h]
  exact ⟨rfl, rfl⟩

theorem leadStep_of_eq (s : E2EState) (ld : Bool) (h : ld = s.leadLast) :
    (leadStep s ld).leadCount = s.leadCount + 1
    ∧ (leadStep s ld).hasLead
        = (if DP_E2E_LEAD_COUNT ≤ s.leadCount + 1 then ld else s.hasLead) := by
  unfold leadStep
  rw [if_neg (by simp [h])]
  exact ⟨rfl, rfl⟩

/-- C3: the committed has-lead flag only changes after the raw flag has held
the same value through the debounce window: a raw flag differing from the last
cycle resets the counter and leaves the commitment untouched, a matching raw
flag increments the counter and commits only once it reaches 50, and a
single-cycle flicker of the raw flag across two cycles never changes the
committed flag. -/
theorem lead_debounce_commit (s : E2EState) (st ws ld : Bool) (rel : ℚ) :
    (ld ≠ s.leadLast →
      ((conditional_e2e s st ws ld rel).1).leadCount = 0
      ∧ ((conditional_e2e s st ws ld rel).1).hasLead = s.hasLead)
    ∧ (ld = s.leadLast →
      ((conditional_e2e s st ws ld rel).1).leadCount = s.leadCount + 1
      ∧ ((conditional_e2e s st ws ld rel).1).hasLead
          = (if DP_E2E_LEAD_COUNT ≤ s.leadCount + 1 then ld else s.hasLead))
    ∧ (((conditional_e2e s st ws ld rel).1).hasLead ≠ s.hasLead →
        ld = s.leadLast ∧ DP_E2E_LEAD_COUNT ≤ s.leadCount + 1)
    ∧ (∀ st2 ws2 : Bool, ∀ rel2 : ℚ,
        ((conditional_e2e ((conditional_e2e s st ws (!s.leadLast) rel).1)
            st2 ws2 s.leadLast rel2).1).hasLead = s.hasLead) := by
  refine ⟨?_, ?_, ?_, ?_⟩
  · intro h
    rw [conditional_e2e_state_leadCount, conditional_e2e_state_hasLead]
    exact leadStep_of_ne s ld h
  · intro h
    rw [conditional_e2e_state_leadCount, conditional_e2e_state_hasLead]
    exact leadStep_of_eq s ld h
  · intro h
    rw [conditional_e2e_state_hasLead] at h
    by_cases hld : ld = s.leadLast
    · refine ⟨hld, ?_⟩
      by_cases h50 : DP_E2E_LEAD_COUNT ≤ s.leadCount + 1
      · exact h50
      · exact absurd ((leadStep_of_eq s ld hld).2.trans (if_neg h50)) h
    · exact absurd (leadStep_of_ne s ld hld).2 h
  · intro st2 ws2 rel2
    have h1 : ((conditional_e2e s st ws (!s.leadLast) rel).1).leadLast = !s.leadLast :=
      conditional_e2e_state_leadLast s st ws (!s.leadLast) rel
    have h2 : ((conditional_e2e s st ws (!s.leadLast) rel).1).hasLead = s.hasLead := by
      rw [conditional_e2e_state_hasLead]
      exact (leadStep_of_ne s (!s.leadLast) (Bool.not_ne_self s.leadLast)).2
    have hne : s.leadLast ≠ ((conditional_e2e s st ws (!s.leadLast) rel).1).leadLast := by
      rw [h1]
      cases s.leadLast <;> simp
    rw [conditional_e2e_state_hasLead, (leadStep_of_ne _ _ hne).2, h2]

/-- Witness for C3: from the initial state a raw lead appearing for one cycle
resets the counter and leaves the committed flag false. -/
theorem lead_debounce_commit_witness :
    (true ≠ initE2E.leadLast)
    ∧ ((conditional_e2e initE2E false false true 0).1).leadCount = 0
    ∧ ((conditional_e2e initE2E false false true 0).1).hasLead = initE2E.hasLead :=
  ⟨by decide,
   ((lead_debounce_commit initE2E false false true 0).1 (by decide)).1,
   ((lead_debounce_commit initE2E false false true 0).1 (by decide)).2⟩

/-- Mode selection as the specification words it: standstill forces blended,
else an armed stop-and-go window forces blended, else the speed condition with
no committed lead forces blended, otherwise acc. -/
def modeSelectSpec (standstill sngArmed withinSpeedCondition committedLead : Bool) : Mode :=
  if standstill then Mode.blended
  else if sngArmed then Mode.blended
  else if withinSpeedCondition && !committedLead then Mode.blended
  else Mode.acc

/-- C5: the selected mode follows the priority order of the spec applied to the
updated stop-and-go flag and committed lead flag, standstill also disarms the
stop-and-go window, the reset flag is set exactly when the selected mode
differs from the mode of the previous cycle, and in particular standstill with
previous mode acc yields blended with the reset flag raised. -/
theorem mode_priority_reset (s : E2EState) (st ws ld : Bool) (rel : ℚ) :
    (conditional_e2e s st ws ld rel).2.1
      = modeSelectSpec st ((sngStep (leadStep s ld) st).sng) ws ((leadStep s ld).hasLead)
    ∧ (conditional_e2e s st ws ld rel).2.2
      = decide ((conditional_e2e s st ws ld rel).2.1 ≠ s.modeLast)
    ∧ (st = true → ((conditional_e2e s st ws ld rel).1).sng = false
        ∧ (conditional_e2e s st ws ld rel).2.1 = Mode.blended)
    ∧ (st = true → s.modeLast = Mode.acc → (conditional_e2e s st ws ld rel).2.2 = true) := by
  refine ⟨?_, ?_, ?_, ?_⟩
  · rw [← sngStep_hasLead (leadStep s ld) st]
    unfold conditional_e2e modeSelectSpec
    dsimp only
    cases st
    · cases ws
      · cases h1 : (sngStep (leadStep s ld) false).sng <;> simp [h1]
      · cases h1 : (sngStep (leadStep s ld) false).sng <;>
          cases h2 : (sngStep (leadStep s ld) false).hasLead <;> simp [h1, h2]
    · simp
  · unfold conditional_e2e
    dsimp only
  · intro hst
    subst hst
    unfold conditional_e2e
    dsimp only
    exact ⟨by simp, by simp⟩
  · intro hst hacc
    subst hst
    unfold conditional_e2e
    dsimp only
    simp [hacc]

/-- Witness for C5: first standstill cycle from the initial state, whose last
committed mode is acc. -/
theorem mode_priority_reset_witness :
    initE2E.modeLast = Mode.acc
    ∧ ((conditional_e2e initE2E true false false 0).1).sng = false
    ∧ (conditional_e2e initE2E true false false 0).2.1 = Mode.blended
    ∧ (conditional_e2e initE2E true false false 0).2.2 = true :=
  ⟨rfl,
   ((mode_priority_reset initE2E true false false 0).2.2.1 rfl).1,
   ((mode_priority_reset initE2E true false false 0).2.2.1 rfl).2,
   (mode_priority_reset initE2E true false false 0).2.2.2 rfl rfl⟩

set_option maxRecDepth 100000 in
/-- C4 is violated by the code: on the trace with one standstill cycle and then
continuous motion with no lead and the speed condition unmet, the mode is
blended on moving cycle 249 but already acc on moving cycle 250 (the claim
requires blended through cycle 250), and after a second standstill-to-moving
transition the first moving cycle is immediately acc because the stop-and-go
counter is never reset. -/
theorem sng_window_trace_facts :
    (runE2E initE2E sngTrace).get? 249 = some Mode.blended
    ∧ (runE2E initE2E sngTrace).get? 250 = some Mode.acc
    ∧ (runE2E initE2E sngTrace).get? 261 = some Mode.blended
    ∧ (runE2E initE2E sngTrace).get? 262 = some Mode.acc := by
  refine ⟨?_, ?_, ?_, ?_⟩ <;> decide

/-- Modelled from the spec: the fixed 33-point reference time grid of the model
(selfdrive.modeld.constants, not under the source tree). -/
def T_IDXS : List ℚ := (List.range 33).map (fun i => ((i : ℚ) / 32) ^ 2 * 10)

/-- Modelled from the spec: the fixed time grid of the optimizer (imported from
the mpc module, not under the source tree); only its length matters to the
claims below. -/
def T_IDXS_MPC : List ℚ := T_IDXS

/-- Modelled from the spec: number of samples of the fixed output grid, a short
prefix of the reference grid (drive_helpers, not under the source tree). -/
def CONTROL_N : Nat := 17

/-- Modelled from the spec: the fixed update period of the engine, 0.05 s as in
the source comment on the warm-start advance. -/
def DT_MDL : ℚ := 5/100

def mpcZeros : List ℚ := List.replicate T_IDXS_MPC.length 0

/-- parse_model: when all three predicted arrays have exactly 33 samples the
reference trajectories are the model samples resampled onto the optimizer grid
with the model error removed; otherwise every reference array is all zeros. -/
def parse_model (positionX velocityX accelerationX : List ℚ) (modelError : ℚ) :
    List ℚ × List ℚ × List ℚ × List ℚ :=
  if positionX.length = 33 ∧ velocityX.length = 33 ∧ accelerationX.length = 33 then
    (T_IDXS_MPC.map (fun t => interp t T_IDXS positionX - modelError * t),
     T_IDXS_MPC.map (fun t => interp t T_IDXS velocityX - modelError),
     T_IDXS_MPC.map (fun t => interp t T_IDXS accelerationX),
     mpcZeros)
  else (mpcZeros, mpcZeros, mpcZeros, mpcZeros)

/-- C7: any model message whose sample arrays are not all of length 33 yields
all-zero reference arrays; the embedding is a total function, so no exception
can be raised. -/
theorem parse_model_malformed_zero (p v a : List ℚ) (e : ℚ)
    (h : ¬(p.length = 33 ∧ v.length = 33 ∧ a.length = 33)) :
    parse_model p v a e = (mpcZeros, mpcZeros, mpcZeros, mpcZeros)
    ∧ ∀ q ∈ mpcZeros, q = 0 := by
  constructor
  · unfold parse_model
    exact if_neg h
  · intro q hq
    exact List.eq_of_mem_replicate hq

/-- Witness for C7 with three empty arrays. -/
theorem parse_model_malformed_zero_witness :
    ¬((List.length ([] : List ℚ) = 33) ∧ (List.length ([] : List ℚ) = 33)
        ∧ (List.length ([] : List ℚ) = 33))
    ∧ (parse_model [] [] [] 0 = (mpcZeros, mpcZeros, mpcZeros, mpcZeros)
       ∧ ∀ q ∈ mpcZeros, q = 0) :=
  ⟨by simp, parse_model_malformed_zero [] [] [] 0 (by simp)⟩

/-- Resampled acceleration trajectory on the output grid. -/
def aDesiredTrajectoryOf (aSolution : List ℚ) : List ℚ :=
  (T_IDXS.take CONTROL_N).map (fun t => interp t T_IDXS_MPC aSolution)

/-- Warm-start advance at the end of update: the new desired acceleration is
the output-grid acceleration trajectory interpolated at the update period, and
the filtered velocity advances by trapezoidal integration of the previous and
new desired accelerations. -/
def warmStartAdvance (aDesired vFilterX : ℚ) (aSolution : List ℚ) : ℚ × ℚ :=
  (interp DT_MDL (T_IDXS.take CONTROL_N) (aDesiredTrajectoryOf aSolution),
   vFilterX + DT_MDL * (interp DT_MDL (T_IDXS.take CONTROL_N) (aDesiredTrajectoryOf aSolution)
     + aDesired) / 2)

/-- C8: every cycle the new desired acceleration equals the output-grid
acceleration trajectory interpolated at the fixed update period, and the
filtered velocity is advanced by the trapezoid rule over the previous and new
desired accelerations. -/
theorem warm_start_advance_eq (aDes vX : ℚ) (sol : List ℚ) :
    (warmStartAdvance aDes vX sol).1
      = interp DT_MDL (T_IDXS.take CONTROL_N) (aDesiredTrajectoryOf sol)
    ∧ (warmStartAdvance aDes vX sol).2
      = vX + DT_MDL * ((warmStartAdvance aDes vX sol).1 + aDes) / 2 :=
  ⟨rfl, rfl⟩

/-- One candidate speed solution of the arbitration: a source tag, a target
acceleration where none encodes the unconstrained float value +infinity, and a
target velocity. -/
structure Candidate where
  source : String
  aTarget : Option ℚ
  vTarget : ℚ
deriving DecidableEq, Repr

/-- Candidates contributed by the advisory controllers when active, in the
insertion order of the source: turn, limit, turnlimit. The controllers
themselves are external collaborators, so their outputs are inputs here. -/
def restCandidates (turnActive : Bool) (turnA turnV : ℚ) (limitActive : Bool)
    (limitA limitV : ℚ) (turnLimitActive : Bool) (turnLimitA turnLimitV : ℚ) :
    List Candidate :=
  (if turnActive then [⟨"turn", some turnA, turnV⟩] else [])
    ++ (if limitActive then [⟨"limit", some limitA, limitV⟩] else [])
    ++ (if turnLimitActive then [⟨"turnlimit", some turnLimitA, turnLimitV⟩] else [])

/-- Full candidate set of cruise_solutions: the baseline cruise candidate is
always first. -/
def candidateList (vCruise : ℚ) (turnActive : Bool) (turnA turnV : ℚ)
    (limitActive : Bool) (limitA limitV : ℚ) (turnLimitActive : Bool)
    (turnLimitA turnLimitV : ℚ) : List Candidate :=
  ⟨"cruise", none, vCruise⟩
    :: restCandidates turnActive turnA turnV limitActive limitA limitV
        turnLimitActive turnLimitA turnLimitV

/-- Minimum selection over the candidates as the Python builtin min performs
it: keep the earlier candidate unless a strictly smaller velocity appears. -/
def pickMinV : Candidate → List Candidate → Candidate
  | c, [] => c
  | c, x :: xs => pickMinV (if x.vTarget < c.vTarget then x else c) xs

/-- cruise_solutions: the chosen candidate, whose fields are the returned
source, acceleration solution and velocity solution. -/
def cruise_solutions (vCruise : ℚ) (turnActive : Bool) (turnA turnV : ℚ)
    (limitActive : Bool) (limitA limitV : ℚ) (turnLimitActive : Bool)
    (turnLimitA turnLimitV : ℚ) : Candidate :=
  pickMinV ⟨"cruise", none, vCruise⟩
    (restCandidates turnActive turnA turnV limitActive limitA limitV
      turnLimitActive turnLimitA turnLimitV)

theorem pickMinV_mem : ∀ (l : List Candidate) (c : Candidate), pickMinV c l ∈ c :: l := by
  intro l
  induction l with
  | nil => intro c; exact List.mem_cons_self _ _
  | cons x xs ih =>
    intro c
    show pickMinV (if x.vTarget < c.vTarget then x else c) xs ∈ c :: x :: xs
    rcases List.mem_cons.1 (ih (if x.vTarget < c.vTarget then x else c)) with h1 | h1
    · rw [h1]
      split_ifs
      · exact List.mem_cons_of_mem _ (List.mem_cons_self _ _)
      · exact List.mem_cons_self _ _
    · exact List.mem_cons_of_mem _ (List.mem_cons_of_mem _ h1)

theorem pickMinV_le_init : ∀ (l : List Candidate) (c : Candidate),
    (pickMinV c l).vTarget ≤ c.vTarget := by
  intro l
  induction l with
  | nil => intro c; exact le_refl _
  | cons x xs ih =>
    intro c
    show (pickMinV (if x.vTarget < c.vTarget then x else c) xs).vTarget ≤ c.vTarget
    refine le_trans (ih _) ?_
    split_ifs with hx
    · exact le_of_lt hx
    · exact le_refl _

theorem pickMinV_le_mem : ∀ (l : List Candidate) (c y : Candidate), y ∈ l →
    (pickMinV c l).vTarget ≤ y.vTarget := by
  intro l
  induction l with
  | nil => intro c y hy; exact absurd hy (List.not_mem_nil y)
  | cons x xs ih =>
    intro c y hy
    show (pickMinV (if x.vTarget < c.vTarget then x else c) xs).vTarget ≤ y.vTarget
    rcases List.mem_cons.1 hy with h1 | h1
    · subst h1
      refine le_trans (pickMinV_le_init xs _) ?_
      split_ifs with hx
      · exact le_refl _
      · exact le_of_not_lt hx
    · exact ih _ y h1

/-- C2: the candidate set always contains the baseline cruise candidate with
unconstrained acceleration and the cruise set-speed as its first element, so it
is never empty, and the arbitration returns a member of the candidate set whose
target velocity is minimal among all candidates. -/
theorem cruise_solutions_min_nonempty (vC : ℚ) (ta : Bool) (tA tV : ℚ)
    (la : Bool) (lA lV : ℚ) (tla : Bool) (tlA tlV : ℚ) :
    (candidateList vC ta tA tV la lA lV tla tlA tlV).head?
      = some ⟨"cruise", none, vC⟩
    ∧ cruise_solutions vC ta tA tV la lA lV tla tlA tlV
        ∈ candidateList vC ta tA tV la lA lV tla tlA tlV
    ∧ ∀ c ∈ candidateList vC ta tA tV la lA lV tla tlA tlV,
        (cruise_solutions vC ta tA tV la lA lV tla tlA tlV).vTarget ≤ c.vTarget := by
  refine ⟨rfl, pickMinV_mem _ _, ?_⟩
  intro c hc
  rcases List.mem_cons.1 hc with h1 | h1
  · rw [h1]
    exact pickMinV_le_init _ _
  · exact pickMinV_le_mem _ _ c h1

/-- Modelled from the spec: the fixed maximum cruise set-speed in km/h,
imported from drive_helpers, which is not under the source tree. -/
def V_CRUISE_MAX : ℚ := 145

/-- Modelled from the spec: km/h to m/s conversion factor. -/
def KPH_TO_MS : ℚ := 5/18

/-- Cruise target velocity per cycle: the set-speed clamped to the cap and
converted to m/s. -/
def cruiseTargetVelocity (vCruiseKph : ℚ) : ℚ := min vCruiseKph V_CRUISE_MAX * KPH_TO_MS

/-- C10: the baseline cruise candidate velocity never exceeds the cap converted
to m/s; set-speeds above the cap are clamped to it, not rejected. -/
theorem cruise_velocity_capped (k : ℚ) (ta : Bool) (tA tV : ℚ) (la : Bool)
    (lA lV : ℚ) (tla : Bool) (tlA tlV : ℚ) :
    cruiseTargetVelocity k ≤ V_CRUISE_MAX * KPH_TO_MS
    ∧ (V_CRUISE_MAX < k → cruiseTargetVelocity k = V_CRUISE_MAX * KPH_TO_MS)
    ∧ (candidateList (cruiseTargetVelocity k) ta tA tV la lA lV tla tlA tlV).head?
        = some ⟨"cruise", none, cruiseTargetVelocity k⟩ := by
  refine ⟨?_, ?_, rfl⟩
  · unfold cruiseTargetVelocity
    have hK : (0:ℚ) ≤ KPH_TO_MS := by norm_num [KPH_TO_MS]
    exact mul_le_mul_of_nonneg_right (min_le_right _ _) hK
  · intro h
    unfold cruiseTargetVelocity
    rw [min_eq_right (le_of_lt h)]

/-- Witness for C10 with a set-speed of 200 km/h, above the cap. -/
theorem cruise_velocity_capped_witness :
    V_CRUISE_MAX < 200
    ∧ cruiseTargetVelocity 200 = V_CRUISE_MAX * KPH_TO_MS :=
  ⟨by norm_num [V_CRUISE_MAX],
   (cruise_velocity_capped 200 false 0 0 false 0 0 false 0 0).2.1
     (by norm_num [V_CRUISE_MAX])⟩

/-- C6 as stated is false: with force-deceleration asserted and current bounds
of -1.2 and 1.6, a previous desired acceleration of 1 makes the upper bound
handed to the optimizer equal to 0.95, which exceeds the awareness
deceleration, because the feasibility clip raises the upper bound back above
the desired acceleration minus the margin. -/
theorem force_decel_upper_bound_cex :
    ¬((mpcAccelLimits (-12/10) (16/10) false true true 1 0 0 15 3 1 none).2
        ≤ AWARENESS_DECEL) := by
  have h2 : (mpcAccelLimits (-12/10) (16/10) false true true 1 0 0 15 3 1 none).2
      = max (min (16/10) AWARENESS_DECEL) (1 - 5/100) := rfl
  rw [h2]
  intro hc
  have := le_trans (le_max_right (min (16/10 : ℚ) AWARENESS_DECEL) (1 - 5/100)) hc
  norm_num [AWARENESS_DECEL] at this

/-- C6 amended: with force-deceleration asserted and current bounds of -1.2 and
1.6, the override step itself yields an upper bound at most the awareness
deceleration with the lower bound below it; the bounds handed to the optimizer
keep lower at most upper, their upper bound is at most the larger of the
awareness deceleration and the previous desired acceleration minus the margin,
and it is at most the awareness deceleration whenever the previous desired
acceleration minus the margin does not exceed it. -/
theorem force_decel_override_clip (aDes : ℚ) (aSol : Option ℚ) :
    (forceDecelOverride (-12/10) (16/10)).2 ≤ AWARENESS_DECEL
    ∧ (forceDecelOverride (-12/10) (16/10)).1 ≤ (forceDecelOverride (-12/10) (16/10)).2
    ∧ (mpcAccelLimits (-12/10) (16/10) false true true 1 0 0 15 3 aDes aSol).1
        ≤ (mpcAccelLimits (-12/10) (16/10) false true true 1 0 0 15 3 aDes aSol).2
    ∧ (mpcAccelLimits (-12/10) (16/10) false true true 1 0 0 15 3 aDes aSol).2
        ≤ max AWARENESS_DECEL (aDes - 5/100)
    ∧ (aDes - 5/100 ≤ AWARENESS_DECEL →
        (mpcAccelLimits (-12/10) (16/10) false true true 1 0 0 15 3 aDes aSol).2
          ≤ AWARENESS_DECEL) := by
  have h2 : (mpcAccelLimits (-12/10) (16/10) false true true 1 0 0 15 3 aDes aSol).2
      = max (min (16/10) AWARENESS_DECEL) (aDes - 5/100) := rfl
  refine ⟨min_le_right _ _, min_le_right _ _, ?_, ?_, ?_⟩
  · exact (feasibilityClip_props _ _ aDes aSol
      (postOverride_le true _ _
        (stage_turns_le (-12/10) (16/10) (by norm_num) false true 1 0 0 15 3))).1
  · rw [h2]
    exact max_le_max (min_le_right _ _) (le_refl _)
  · intro h
    rw [h2]
    exact max_le (min_le_right _ _) h

/-- Witness for C6 amended with a previous desired acceleration of -1. -/
theorem force_decel_override_clip_witness :
    ((-1 : ℚ) - 5/100 ≤ AWARENESS_DECEL)
    ∧ (mpcAccelLimits (-12/10) (16/10) false true true 1 0 0 15 3 (-1) none).2
        ≤ AWARENESS_DECEL :=
  ⟨by norm_num [AWARENESS_DECEL],
   (force_decel_override_clip (-1) none).2.2.2.2 (by norm_num [AWARENESS_DECEL])⟩

/-- C9 is violated by the code: with profile selection disabled the derived
bounds are the constant optimizer-wide limits at every speed, while the default
table would give different maxima at 0 and at 40; the default-table branch is
unreachable since its guard also requires profile selection to be enabled. -/
theorem profile_disabled_constant_limits :
    (accelLimitsStage (-7/2) 2 false true 1 0 0 15 3).1 = (-7/2, 2)
    ∧ (accelLimitsStage (-7/2) 2 false true 1 40 0 15 3).1 = (-7/2, 2)
    ∧ get_max_accel 0 = 8/5
    ∧ get_max_accel 40 = 3/5
    ∧ A_CRUISE_MIN = -12/10 := by
  refine ⟨rfl, rfl, ?_, ?_, rfl⟩
  · norm_num [get_max_accel, interp, A_CRUISE_MAX_BP, A_CRUISE_MAX_VALS]
  · norm_num [get_max_accel, interp, interpGo, A_CRUISE_MAX_BP, A_CRUISE_MAX_VALS]
